import Mathlib

/-!
Shallow embedding of the `log` package (a structured-logging facade over an
underlying zap-style core): field constructors, the trace-id extractor, the
variadic key-value normalizer `logw`, logger derivation (`With`, `SetLevel`)
and the process-wide singleton accessor `L`.

The package source is the authority for every definition below; the underlying
zap core itself is an external collaborator and is modelled only at the
interface boundary the specification gives for it (an enabled check, a
check-then-write handle, with-field accumulation).
-/

namespace Log

/-- The payload tags of `zapcore.Field` (field `Type` in the source), abridged
to the tags the package constructs. -/
inductive FType where
  | boolT
  | int64T
  | uint64T
  | stringT
  | binaryT
  | byteStringT
  | objectT
  | namespaceT
  | anyT
  deriving DecidableEq, Repr

/-- A Go `interface\x7b\x7d` value as it can appear in a variadic `kv` argument
list: `nil`, a string, an integer, a boolean, some other opaque value
(`tagged`), an already-constructed `zapcore.Field` (constructor `fieldv`,
carrying the field data `Key`, `Type`, `Integer`, `String`, `Interface`), or a
`context.Context` (constructor `ctxv`, carrying the optional valid trace
identifier attached to the context, in string form). -/
inductive GoVal where
  | nil
  | str (s : String)
  | int (n : Int)
  | bool (b : Bool)
  | tagged (t : String)
  | fieldv (key : String) (ftype : FType) (integer : Int) (string : String) (interface : GoVal)
  | ctxv (trace : Option String)
  deriving DecidableEq, Repr

/-- Structure `zapcore.Field`: key, payload tag and the three payload slots the package
uses (source fields `Key`, `Type`, `Integer`, `String`, `Interface`). -/
structure Field where
  key : String
  ftype : FType
  integer : Int := 0
  string : String := ""
  interface : GoVal := GoVal.nil
  deriving DecidableEq, Repr

/-- A `Field` seen as an `interface\x7b\x7d` value (as when it is passed in a
variadic `kv` list). -/
def Field.toVal (f : Field) : GoVal :=
  GoVal.fieldv f.key f.ftype f.integer f.string f.interface

/-- A `context.Context`, abridged to the only capability the package reads
from it: the optional valid trace identifier of the span attached to it
(`none` models both an absent span and an invalid zero trace id). -/
structure Ctx where
  trace : Option String
  deriving DecidableEq, Repr

/-- A `Ctx` seen as an `interface\x7b\x7d` value. -/
def Ctx.toVal (c : Ctx) : GoVal := GoVal.ctxv c.trace

/-- The Go type assertion `kv[i].(string)` succeeds exactly on these values. -/
def GoVal.isStr : GoVal → Bool
  | .str _ => true
  | _ => false

/-- A value that is neither a `zapcore.Field` nor a `context.Context`: both
type assertions of the normalizer loop fail on it, so it is treated as a key
or a value of a raw pair. -/
def GoVal.isBare : GoVal → Bool
  | .fieldv _ _ _ _ _ => false
  | .ctxv _ => false
  | _ => true

/-- Constant `NoTraceId` from `fields.go`. -/
def NoTraceId : String := "unknown"

/-- Function `TraceId` from `fields.go`: extract the trace id from the span attached to
the context; if the id is valid return it in string form, otherwise return the
`NoTraceId` sentinel. Either way the result is a string-typed field with key
`traceId`. -/
def TraceId (ctx : Ctx) : Field :=
  match ctx.trace with
  | some tid => { key := "traceId", ftype := FType.stringT, string := tid }
  | none => { key := "traceId", ftype := FType.stringT, string := NoTraceId }

/-- Function `Any` from `fields.go` (delegating to `zap.Any`): best-effort dispatch of
a dynamic value to a typed field, abridged to the value shapes `GoVal`
models; unknown shapes fall back to the generic reflective representation. -/
def Any (key : String) (value : GoVal) : Field :=
  match value with
  | .str s => { key := key, ftype := FType.stringT, string := s }
  | .int n => { key := key, ftype := FType.int64T, integer := n }
  | .bool b => { key := key, ftype := FType.boolT, integer := if b then 1 else 0 }
  | v => { key := key, ftype := FType.anyT, interface := v }

/-- A Go `error` interface value: `none` is the nil interface, `some m` a
non-nil error whose `Error()` method returns the message `m`. -/
abbrev GoError := Option String

/-- Function `Error` from `fields.go`: `Field\x7bKey: "error", Type: StringType,
String: err.Error()\x7d`. The source calls `err.Error()` unconditionally, so a
nil `err` dereferences a nil interface and faults; the fault is modelled as
`none`. -/
def Error (err : GoError) : Option Field :=
  match err with
  | some m => some { key := "error", ftype := FType.stringT, string := m }
  | none => none

/-- Function `Method` from `fields.go`. -/
def Method (value : String) : Field :=
  { key := "method", ftype := FType.stringT, string := value }

/-- Function `Count` from `fields.go`. -/
def Count (count : Int) : Field :=
  { key := "count", ftype := FType.int64T, integer := count }

/-- Type `zapcore.Level`, the severity scale. -/
inductive Level where
  | debug
  | info
  | warn
  | error
  | dpanic
  | panic
  | fatal
  deriving DecidableEq, Repr

/-- The numeric value of a `zapcore.Level` (Debug is -1, Fatal is 5); the
source compares levels through this ordering. -/
def Level.toInt : Level → Int
  | .debug => -1
  | .info => 0
  | .warn => 1
  | .error => 2
  | .dpanic => 3
  | .panic => 4
  | .fatal => 5

/-- Structure `invalidPair`: the diagnostic record for a key-value pair whose key is not
a string, with the scan position of the key. -/
structure invalidPair where
  position : Nat
  key : GoVal
  value : GoVal
  deriving DecidableEq, Repr

/-- Type `invalidPairs` from the source. -/
abbrev invalidPairs := List invalidPair

/-- The outcome of the normalizer loop of `logw` over one `kv` list: the
fields collected for the record, the side list of invalid pairs, and the
dangling trailing value when the loop hit the dangling-key branch and broke
out. -/
structure ScanResult where
  fields : List Field
  invalids : invalidPairs
  dangling : Option GoVal
  deriving DecidableEq, Repr

/-- Constant `danglingKeyErrMsg` from the source. -/
def danglingKeyErrMsg : String := "Ignored key without a value."

/-- Constant `nonStringKeyErrMsg` from the source. -/
def nonStringKeyErrMsg : String := "Ignored key-value pairs with non-string keys."

/-- The loop body of `logw` (source lines 250-282), as a left-to-right scan
with the running index `i` of the Go loop. At each position: an
already-constructed `Field` is appended as-is (one slot); a `Context` consumes
one slot and appends `TraceId(ctx)` only when its string is not the
`NoTraceId` sentinel; a bare value in the last slot is the dangling key (the
loop breaks); otherwise two slots form a key-value pair, appended as
`Any(key, value)` when the key is a string and recorded as an `invalidPair`
at position `i` when it is not. -/
def scanKV : List GoVal → Nat → ScanResult
  | [], _ => { fields := [], invalids := [], dangling := none }
  | .fieldv k t n s iv :: rest, i =>
      let r := scanKV rest (i + 1)
      { r with fields := { key := k, ftype := t, integer := n, string := s, interface := iv } :: r.fields }
  | .ctxv tr :: rest, i =>
      let r := scanKV rest (i + 1)
      if (TraceId { trace := tr }).string ≠ NoTraceId then
        { r with fields := TraceId { trace := tr } :: r.fields }
      else
        r
  | x :: [], _ => { fields := [], invalids := [], dangling := some x }
  | k :: v :: rest, i =>
      let r := scanKV rest (i + 2)
      match k with
      | .str s => { r with fields := Any s v :: r.fields }
      | _ => { r with invalids := { position := i, key := k, value := v } :: r.invalids }

/-- The payload of a diagnostic the normalizer emits through the base
logger: `zap.Any("ignored", v)` for a dangling key, `zap.Array("invalid", ps)`
for the collected invalid pairs. -/
inductive Diag where
  | ignoredField (f : Field)
  | invalidArray (ps : invalidPairs)
  deriving DecidableEq, Repr

/-- An observable interaction of one `logw` call with the underlying core:
either the record write performed through the checked write handle (carrying
the level, the message and the ordered field list, the with-bound fields of
the base first), or a DPanic diagnostic emitted through the base logger. -/
inductive Event where
  | write (lvl : Level) (msg : String) (fields : List Field)
  | dpanicDiag (msg : String) (d : Diag)
  deriving DecidableEq, Repr

/-- Whether an event is a record write. -/
def Event.isWrite : Event → Bool
  | .write _ _ _ => true
  | _ => false

/-- Whether an event is the invalid-pairs diagnostic. -/
def Event.isInvalidDiag : Event → Bool
  | .dpanicDiag _ (Diag.invalidArray _) => true
  | _ => false

/-- Modelled from the spec: the base `zap.Logger`, the external collaborator,
at its interface boundary: the fields accumulated by `with`, and the shared
atomic level gate its core consults. -/
structure ZapLogger where
  fields : List Field
  level : Level
  deriving DecidableEq, Repr

/-- Modelled from the spec: the enabled check of the underlying core — a
severity is enabled when it is at or above the installed level. -/
def ZapLogger.enabled (b : ZapLogger) (lvl : Level) : Bool :=
  b.level.toInt ≤ lvl.toInt

/-- Modelled from the spec: `check(level, message)` of the underlying core
returns a write handle exactly when the severity is enabled, and nothing when
it is disabled. -/
def ZapLogger.check (b : ZapLogger) (lvl : Level) : Bool :=
  b.enabled lvl

/-- Modelled from the spec: `with(fields)` of the underlying core returns a
new core view with the given fields bound after the already-accumulated
ones. -/
def ZapLogger.withFields (b : ZapLogger) (fs : List Field) : ZapLogger :=
  { b with fields := b.fields ++ fs }

/-- Structure `Logger`: holds the base logger; the `level` field of the Go struct is the
same atomic cell the base core consults, so it is represented once inside
`base`. -/
structure Logger where
  base : ZapLogger
  deriving DecidableEq, Repr

/-- Function `NewLogger`: a production logger whose atomic level starts at Info (the
encoder and sink configuration belong to the external core). -/
def NewLogger : Logger :=
  { base := { fields := [], level := Level.info } }

/-- Function `L`: the singleton accessor over the atomic `defaultLogger` slot. The
argument is the state of the slot (`none` is the nil pointer); the result is
the returned logger and the slot state after the call. -/
def L : Option Logger → Logger × Option Logger
  | some l => (l, some l)
  | none => (NewLogger, some NewLogger)

/-- Method `Logger.SetLevel`: alters the shared atomic level. -/
def Logger.SetLevel (l : Logger) (level : Level) : Logger :=
  { l with base := { l.base with level := level } }

/-- Method `Logger.With` from the source: the body executes
`l.base = l.base.With(fields...)` and then `return l`, so the receiver is
assigned through and the returned pointer is the receiver itself. The first
component is the state of the receiver after the call and the second the
state of the returned logger; the source makes them the same. -/
def Logger.With (l : Logger) (fields : List Field) : Logger × Logger :=
  let r : Logger := { l with base := l.base.withFields fields }
  (r, r)

/-- Method `Logger.logw`: the keyed dispatch core. Returns the list of interactions
with the underlying core, in order: the early return when the severity is
below DPanic and not enabled, then the checked write handle, then the
normalizer loop (`scanKV`), the dangling-key diagnostic, the invalid-pairs
diagnostic, and finally the record write with the collected fields. -/
def Logger.logw (l : Logger) (lvl : Level) (msg : String) (kv : List GoVal) : List Event :=
  if lvl.toInt < Level.dpanic.toInt && !(l.base.enabled lvl) then []
  else if l.base.check lvl then
    if 0 < kv.length then
      let r := scanKV kv 0
      (match r.dangling with
        | some x => [Event.dpanicDiag danglingKeyErrMsg (Diag.ignoredField (Any "ignored" x))]
        | none => []) ++
      (if 0 < r.invalids.length then
        [Event.dpanicDiag nonStringKeyErrMsg (Diag.invalidArray r.invalids)]
      else []) ++
      [Event.write lvl msg (l.base.fields ++ r.fields)]
    else
      [Event.write lvl msg l.base.fields]
  else []

/-- Method `Logger.Info`: appends the traceId field of the context to the tail of the
argument list and dispatches at Info severity. -/
def Logger.Info (l : Logger) (ctx : Ctx) (msg : String) (kv : List GoVal) : List Event :=
  l.logw Level.info msg (kv ++ [(TraceId ctx).toVal])

/-- Method `Logger.DPanic`: appends the traceId field of the context and dispatches
at DPanic severity. -/
def Logger.DPanic (l : Logger) (ctx : Ctx) (msg : String) (kv : List GoVal) : List Event :=
  l.logw Level.dpanic msg (kv ++ [(TraceId ctx).toVal])

/-- Method `Logger.Infow`: keyed, no context. -/
def Logger.Infow (l : Logger) (msg : String) (kv : List GoVal) : List Event :=
  l.logw Level.info msg kv

/-- Method `Logger.DPanicw` as the source writes it: the body dispatches
`l.logw(zapcore.InfoLevel, msg, kv)`. -/
def Logger.DPanicw (l : Logger) (msg : String) (kv : List GoVal) : List Event :=
  l.logw Level.info msg kv

end Log

namespace Log

/-- Appending one bare value to an argument list that the loop scans to the
end (no dangling break) makes that value the dangling key: the fields and the
invalid pairs of the shorter list are kept and the scan stops at the trailing
value. -/
theorem scanKV_snoc_bare (kv : List GoVal) (i : Nat) (v : GoVal)
    (hv : v.isBare = true) (h : (scanKV kv i).dangling = none) :
    scanKV (kv ++ [v]) i = { scanKV kv i with dangling := some v } := by
  induction kv, i using scanKV.induct with
  | case1 i =>
      cases v with
      | fieldv k t n s iv => simp [GoVal.isBare] at hv
      | ctxv tr => simp [GoVal.isBare] at hv
      | nil => simp [scanKV]
      | str s => simp [scanKV]
      | int n => simp [scanKV]
      | bool b => simp [scanKV]
      | tagged t => simp [scanKV]
  | case2 k t n s iv rest i ih =>
      have h' : (scanKV rest (i + 1)).dangling = none := by simpa [scanKV] using h
      simp only [List.cons_append, List.append_eq, scanKV, ih h']
  | case3 tr rest i hcond ih =>
      have h' : (scanKV rest (i + 1)).dangling = none := by
        have := h
        simp only [scanKV] at this
        rw [if_pos hcond] at this
        exact this
      simp only [List.cons_append, List.append_eq, scanKV, ih h']
      rw [if_pos hcond, if_pos hcond]
  | case4 tr rest i hcond ih =>
      have h' : (scanKV rest (i + 1)).dangling = none := by
        have := h
        simp only [scanKV] at this
        rw [if_neg hcond] at this
        exact this
      simp only [List.cons_append, List.append_eq, scanKV, ih h']
      rw [if_neg hcond, if_neg hcond]
  | case5 x i hnf hnc =>
      cases x with
      | fieldv k t n s iv => exact (hnf k t n s iv rfl).elim
      | ctxv tr => exact (hnc tr rfl).elim
      | nil => simp [scanKV] at h
      | str s => simp [scanKV] at h
      | int n => simp [scanKV] at h
      | bool b => simp [scanKV] at h
      | tagged t => simp [scanKV] at h
  | case6 v' rest i s hnf hnc ih =>
      have h' : (scanKV rest (i + 2)).dangling = none := by simpa [scanKV] using h
      simp only [List.cons_append, List.append_eq, scanKV, ih h']
  | case7 k v' rest i hnf hnc hns ih =>
      cases k with
      | fieldv kk t n s iv => exact (hnf kk t n s iv rfl).elim
      | ctxv tr => exact (hnc tr rfl).elim
      | str s => exact (hns s rfl).elim
      | nil =>
          have h' : (scanKV rest (i + 2)).dangling = none := by simpa [scanKV] using h
          simp only [List.cons_append, List.append_eq, scanKV, ih h']
      | int n =>
          have h' : (scanKV rest (i + 2)).dangling = none := by simpa [scanKV] using h
          simp only [List.cons_append, List.append_eq, scanKV, ih h']
      | bool b =>
          have h' : (scanKV rest (i + 2)).dangling = none := by simpa [scanKV] using h
          simp only [List.cons_append, List.append_eq, scanKV, ih h']
      | tagged t =>
          have h' : (scanKV rest (i + 2)).dangling = none := by simpa [scanKV] using h
          simp only [List.cons_append, List.append_eq, scanKV, ih h']

/-- An argument list consisting only of already-constructed fields scans to
exactly that field list, with no invalid pairs and no dangling key. -/
theorem scanKV_fields (fs : List Field) (i : Nat) :
    scanKV (fs.map Field.toVal) i = { fields := fs, invalids := [], dangling := none } := by
  induction fs generalizing i with
  | nil => rfl
  | cons f rest ih => simp [Field.toVal, scanKV, ih]

end Log


namespace Log

theorem scanKV_invalids_spec (kv : List GoVal) (i : Nat) :
    ∀ p ∈ (scanKV kv i).invalids,
      i ≤ p.position ∧ kv[p.position - i]? = some p.key ∧
        kv[p.position - i + 1]? = some p.value ∧ p.key.isStr = false := by
  induction kv, i using scanKV.induct with
  | case1 i => simp [scanKV]
  | case2 k t n s iv rest i ih =>
      intro p hp
      simp only [scanKV] at hp
      obtain ⟨h1, h2, h3, h4⟩ := ih p hp
      refine ⟨by omega, ?_, ?_, h4⟩
      · have e : p.position - i = (p.position - (i + 1)) + 1 := by omega
        rw [e]
        simpa using h2
      · have e : p.position - i + 1 = (p.position - (i + 1) + 1) + 1 := by omega
        rw [e]
        simpa using h3
  | case3 tr rest i hcond ih =>
      intro p hp
      simp only [scanKV] at hp
      rw [if_pos hcond] at hp
      obtain ⟨h1, h2, h3, h4⟩ := ih p hp
      refine ⟨by omega, ?_, ?_, h4⟩
      · have e : p.position - i = (p.position - (i + 1)) + 1 := by omega
        rw [e]
        simpa using h2
      · have e : p.position - i + 1 = (p.position - (i + 1) + 1) + 1 := by omega
        rw [e]
        simpa using h3
  | case4 tr rest i hcond ih =>
      intro p hp
      simp only [scanKV] at hp
      rw [if_neg hcond] at hp
      obtain ⟨h1, h2, h3, h4⟩ := ih p hp
      refine ⟨by omega, ?_, ?_, h4⟩
      · have e : p.position - i = (p.position - (i + 1)) + 1 := by omega
        rw [e]
        simpa using h2
      · have e : p.position - i + 1 = (p.position - (i + 1) + 1) + 1 := by omega
        rw [e]
        simpa using h3
  | case5 x i hnf hnc =>
      cases x with
      | fieldv k t n s iv => exact (hnf k t n s iv rfl).elim
      | ctxv tr => exact (hnc tr rfl).elim
      | nil => simp [scanKV]
      | str s => simp [scanKV]
      | int n => simp [scanKV]
      | bool b => simp [scanKV]
      | tagged t => simp [scanKV]
  | case6 v' rest i s hnf hnc ih =>
      intro p hp
      simp only [scanKV] at hp
      obtain ⟨h1, h2, h3, h4⟩ := ih p hp
      refine ⟨by omega, ?_, ?_, h4⟩
      · have e : p.position - i = (p.position - (i + 2)) + 1 + 1 := by omega
        rw [e]
        simpa using h2
      · have e : p.position - i + 1 = (p.position - (i + 2) + 1) + 1 + 1 := by omega
        rw [e]
        simpa using h3
  | case7 k v' rest i hnf hnc hns ih =>
      intro p hp
      have hk : k.isStr = false := by
        cases k with
        | fieldv kk t n s iv => exact (hnf kk t n s iv rfl).elim
        | ctxv tr => exact (hnc tr rfl).elim
        | str s => exact (hns s rfl).elim
        | nil => rfl
        | int n => rfl
        | bool b => rfl
        | tagged t => rfl
      have hp' : p = { position := i, key := k, value := v' } ∨ p ∈ (scanKV rest (i + 2)).invalids := by
        cases k with
        | fieldv kk t n s iv => exact (hnf kk t n s iv rfl).elim
        | ctxv tr => exact (hnc tr rfl).elim
        | str s => exact (hns s rfl).elim
        | nil => simpa [scanKV] using hp
        | int n => simpa [scanKV] using hp
        | bool b => simpa [scanKV] using hp
        | tagged t => simpa [scanKV] using hp
      rcases hp' with rfl | hp'
      · simp [hk]
      · obtain ⟨h1, h2, h3, h4⟩ := ih p hp'
        refine ⟨by omega, ?_, ?_, h4⟩
        · have e : p.position - i = (p.position - (i + 2)) + 1 + 1 := by omega
          rw [e]
          simpa using h2
        · have e : p.position - i + 1 = (p.position - (i + 2) + 1) + 1 + 1 := by omega
          rw [e]
          simpa using h3

end Log

namespace Log

theorem scanKV_invalids_sorted (kv : List GoVal) (i : Nat) :
    ((scanKV kv i).invalids).Pairwise (fun p q => p.position < q.position) := by
  induction kv, i using scanKV.induct with
  | case1 i => simp [scanKV]
  | case2 k t n s iv rest i ih => simpa [scanKV] using ih
  | case3 tr rest i hcond ih =>
      simp only [scanKV]
      rw [if_pos hcond]
      simpa using ih
  | case4 tr rest i hcond ih =>
      simp only [scanKV]
      rw [if_neg hcond]
      exact ih
  | case5 x i hnf hnc =>
      cases x with
      | fieldv k t n s iv => exact (hnf k t n s iv rfl).elim
      | ctxv tr => exact (hnc tr rfl).elim
      | nil => simp [scanKV]
      | str s => simp [scanKV]
      | int n => simp [scanKV]
      | bool b => simp [scanKV]
      | tagged t => simp [scanKV]
  | case6 v' rest i s hnf hnc ih => simpa [scanKV] using ih
  | case7 k v' rest i hnf hnc hns ih =>
      have hb : ∀ q ∈ (scanKV rest (i + 2)).invalids, i < q.position := by
        intro q hq
        have := (scanKV_invalids_spec rest (i + 2) q hq).1
        omega
      cases k with
      | fieldv kk t n s iv => exact (hnf kk t n s iv rfl).elim
      | ctxv tr => exact (hnc tr rfl).elim
      | str s => exact (hns s rfl).elim
      | nil => simp only [scanKV]; exact List.Pairwise.cons hb ih
      | int n => simp only [scanKV]; exact List.Pairwise.cons hb ih
      | bool b => simp only [scanKV]; exact List.Pairwise.cons hb ih
      | tagged t => simp only [scanKV]; exact List.Pairwise.cons hb ih

theorem logw_run (l : Logger) (lvl : Level) (msg : String) (kv : List GoVal)
    (hen : l.base.enabled lvl = true) (hkv : kv ≠ []) :
    l.logw lvl msg kv =
      (match (scanKV kv 0).dangling with
        | some x => [Event.dpanicDiag danglingKeyErrMsg (Diag.ignoredField (Any "ignored" x))]
        | none => []) ++
      (if 0 < (scanKV kv 0).invalids.length then
        [Event.dpanicDiag nonStringKeyErrMsg (Diag.invalidArray (scanKV kv 0).invalids)]
      else []) ++
      [Event.write lvl msg (l.base.fields ++ (scanKV kv 0).fields)] := by
  have hlen : 0 < kv.length := List.length_pos.mpr hkv
  simp [Logger.logw, ZapLogger.check, hen, hlen]

end Log

namespace Log

/-- C1: the claim fails on the source: `With` executes
`l.base = l.base.With(fields...)` and returns the same pointer, so the
receiver is mutated in place — the state of the receiver after the call
equals the returned logger, carries the bound field, and a record logged
through the original receiver contains it, contradicting the method doc
comment ("Fields added to the child do not affect the parent"). -/
theorem With_mutates_receiver :
    (Logger.With NewLogger [Method "test"]).1 = (Logger.With NewLogger [Method "test"]).2 ∧
    ((Logger.With NewLogger [Method "test"]).1).base.fields = [Method "test"] ∧
    ((Logger.With NewLogger [Method "test"]).1).Infow "m" [] =
      [Event.write Level.info "m" [Method "test"]] :=
  ⟨rfl, rfl, rfl⟩

/-- C2: the claim fails on the source: `DPanicw` dispatches
`logw(zapcore.InfoLevel, ...)`, so on a fresh default logger it produces an
Info-level write, and once the level is raised to Warn the call is gated away
entirely — a DPanic-severity dispatch would bypass the gate and emit at
DPanic severity. -/
theorem DPanicw_dispatches_at_info :
    NewLogger.DPanicw "boom" [] = [Event.write Level.info "boom" []] ∧
    (NewLogger.SetLevel Level.warn).DPanicw "boom" [] = [] :=
  ⟨rfl, rfl⟩

/-- C5 counterexample: `Error` applied to a nil error produces no field at
all — the source calls `err.Error()` unconditionally, dereferencing the nil
interface (modelled as `none`) instead of rendering a placeholder string. -/
theorem Error_nil_faults : Error none = none := rfl

/-- C5 amended: for every non-nil error, `Error` returns the string-typed
field with key `error` carrying the error message. -/
theorem Error_total_on_non_nil (m : String) :
    Error (some m) =
      some { key := "error", ftype := FType.stringT, integer := 0, string := m,
             interface := GoVal.nil } := rfl

/-- C6 counterexample: with the level set to Fatal, a DPanic-severity keyed
call produces no interaction with the core at all — the pre-construction gate
is skipped for DPanic, but the core check still refuses the write, so DPanic
does not "always construct and emit". -/
theorem dpanic_not_emitted_at_fatal_level :
    (NewLogger.SetLevel Level.fatal).logw Level.dpanic "m" [] = [] := rfl

/-- C6 amended: level gating is monotonic for all severities: after
`SetLevel(X)`, a keyed call at a severity strictly below X produces no
underlying-core record write and a call at severity at or above X produces
exactly one; for DPanic/Panic/Fatal only the pre-construction early return of
`logw` is skipped, and the core check still gates emission. -/
theorem logw_write_count (l : Logger) (level lvl : Level) (msg : String) (kv : List GoVal) :
    ((l.SetLevel level).logw lvl msg kv).countP Event.isWrite =
      if level.toInt ≤ lvl.toInt then 1 else 0 := by
  by_cases hen : level.toInt ≤ lvl.toInt
  · rw [if_pos hen]
    have hen' : (l.SetLevel level).base.enabled lvl = true := by
      simp [Logger.SetLevel, ZapLogger.enabled, hen]
    cases kv with
    | nil => simp [Logger.logw, ZapLogger.check, hen', Event.isWrite]
    | cons a as =>
        rw [logw_run _ lvl msg _ hen' (by simp)]
        cases hd : (scanKV (a :: as) 0).dangling <;>
          by_cases hi : 0 < (scanKV (a :: as) 0).invalids.length <;>
            simp [hd, hi, List.countP_append, List.countP_cons, Event.isWrite]
  · rw [if_neg hen]
    have hen' : (l.SetLevel level).base.enabled lvl = false := by
      simp [Logger.SetLevel, ZapLogger.enabled, hen]
    by_cases hlt : lvl.toInt < Level.dpanic.toInt <;>
      simp [Logger.logw, ZapLogger.check, hen', hlt]

/-- C7: for every context, `TraceId` returns a structurally-present
string-typed field with key `traceId`, whose value is the attached trace
identifier in string form when one is present and valid, and the fixed
sentinel `NoTraceId` = "unknown" otherwise. -/
theorem TraceId_total (c : Ctx) :
    TraceId c =
      { key := "traceId", ftype := FType.stringT, integer := 0,
        string := c.trace.getD NoTraceId, interface := GoVal.nil } := by
  cases c with
  | mk t => cases t <;> rfl

/-- C10: the singleton accessor `L` always returns a usable logger and leaves
it published in the slot: on an empty (nil) slot it constructs the default
logger, publishes and returns it; on a non-empty slot it returns the published
logger unchanged. -/
theorem L_never_nil (s : Option Logger) :
    (L s).2 = some (L s).1 ∧ (L s).1 = s.getD NewLogger := by
  cases s <;> exact ⟨rfl, rfl⟩

/-- C9: an argument list consisting only of already-constructed fields is
passed through unchanged: the record is written with exactly the input field
sequence (after the with-bound fields of the logger), in order, and no
diagnostic is emitted. -/
theorem logw_fields_identity (l : Logger) (lvl : Level) (msg : String) (fs : List Field)
    (hen : l.base.enabled lvl = true) :
    l.logw lvl msg (fs.map Field.toVal) = [Event.write lvl msg (l.base.fields ++ fs)] := by
  cases fs with
  | nil => simp [Logger.logw, ZapLogger.check, hen]
  | cons f rest =>
      rw [logw_run l lvl msg _ hen (by simp)]
      have hs : scanKV ((f :: rest).map Field.toVal) 0 =
          { fields := f :: rest, invalids := [], dangling := none } := scanKV_fields _ _
      simp only [List.map_cons] at hs
      simp [hs]

/-- C9 witness. -/
theorem logw_fields_identity_w :
    NewLogger.logw Level.info "m" ([Method "x"].map Field.toVal) =
      [Event.write Level.info "m" [Method "x"]] :=
  (logw_fields_identity NewLogger Level.info "m" [Method "x"] (by decide)).trans (by decide)

end Log

namespace Log

/-- C3: for every argument list ending in a bare value that the scan reaches
as the last remaining element (the prefix scans to completion), `logw` appends
no field for that element, emits exactly one dangling-key diagnostic carrying
the dangling value, stops scanning, and still writes the record with every
field parsed from the earlier positions (after the with-bound fields),
together with the invalid-pair diagnostic of the prefix when there is one. -/
theorem logw_dangling (l : Logger) (lvl : Level) (msg : String) (pre : List GoVal) (v : GoVal)
    (hen : l.base.enabled lvl = true) (hv : v.isBare = true)
    (hpre : (scanKV pre 0).dangling = none) :
    l.logw lvl msg (pre ++ [v]) =
      Event.dpanicDiag danglingKeyErrMsg (Diag.ignoredField (Any "ignored" v)) ::
        ((if 0 < (scanKV pre 0).invalids.length then
            [Event.dpanicDiag nonStringKeyErrMsg (Diag.invalidArray (scanKV pre 0).invalids)]
          else []) ++
          [Event.write lvl msg (l.base.fields ++ (scanKV pre 0).fields)]) := by
  rw [logw_run l lvl msg _ hen (by simp)]
  rw [scanKV_snoc_bare pre 0 v hv hpre]
  simp

/-- C3 witness. -/
theorem logw_dangling_w :
    NewLogger.logw Level.info "m" [GoVal.str "k", GoVal.int 7, GoVal.str "onlykey"] =
      [Event.dpanicDiag danglingKeyErrMsg (Diag.ignoredField (Any "ignored" (GoVal.str "onlykey"))),
       Event.write Level.info "m" [Any "k" (GoVal.int 7)]] :=
  (logw_dangling NewLogger Level.info "m" [GoVal.str "k", GoVal.int 7] (GoVal.str "onlykey")
    (by decide) (by decide) (by decide)).trans (by decide)

/-- C4: whenever the scan of the argument list records a non-empty side list
of invalid pairs, `logw` emits exactly one invalid-pairs diagnostic, its
payload is that side list, the record write with the successfully parsed
fields is still performed, and the recorded pairs are in original scan order
with correct positions: each records the key at its position in the argument
list, the value right after it, and a key that is not a string. -/
theorem logw_invalid_pairs (l : Logger) (lvl : Level) (msg : String) (kv : List GoVal)
    (hen : l.base.enabled lvl = true) (hinv : (scanKV kv 0).invalids ≠ []) :
    (l.logw lvl msg kv).countP Event.isInvalidDiag = 1 ∧
    Event.dpanicDiag nonStringKeyErrMsg (Diag.invalidArray (scanKV kv 0).invalids) ∈
      l.logw lvl msg kv ∧
    Event.write lvl msg (l.base.fields ++ (scanKV kv 0).fields) ∈ l.logw lvl msg kv ∧
    ((scanKV kv 0).invalids).Pairwise (fun p q => p.position < q.position) ∧
    ∀ p ∈ (scanKV kv 0).invalids,
      kv[p.position]? = some p.key ∧ kv[p.position + 1]? = some p.value ∧
        p.key.isStr = false := by
  have hkv : kv ≠ [] := by
    intro h
    rw [h] at hinv
    exact hinv rfl
  have hlen : 0 < (scanKV kv 0).invalids.length := List.length_pos.mpr hinv
  rw [logw_run l lvl msg kv hen hkv]
  refine ⟨?_, ?_, ?_, scanKV_invalids_sorted kv 0, ?_⟩
  · cases hd : (scanKV kv 0).dangling <;>
      simp [hd, hlen, List.countP_append, List.countP_cons, Event.isInvalidDiag]
  · cases hd : (scanKV kv 0).dangling <;> simp [hd, hlen]
  · cases hd : (scanKV kv 0).dangling <;> simp [hd, hlen]
  · intro p hp
    have h := scanKV_invalids_spec kv 0 p hp
    simpa using h.2

/-- C4 witness. -/
theorem logw_invalid_pairs_w :
    (NewLogger.logw Level.info "m" [GoVal.int 42, GoVal.str "v", GoVal.str "k", GoVal.int 1]).countP
      Event.isInvalidDiag = 1 :=
  (logw_invalid_pairs NewLogger Level.info "m"
    [GoVal.int 42, GoVal.str "v", GoVal.str "k", GoVal.int 1] (by decide) (by decide)).1

/-- C8: a context-like value in the argument list consumes exactly one slot
and contributes the trace field only when it is not the sentinel: with no
trace attached the scan of the remainder is returned unchanged (nothing
appended for the slot), and with a valid trace id (different from the
sentinel) the trace field is prepended; by contrast, the top-level `Info`
method always appends the traceId field, including the "unknown" sentinel, as
the concrete scenario shows. -/
theorem scanKV_ctx_slot (rest : List GoVal) (i : Nat) (t : String) :
    scanKV (GoVal.ctxv none :: rest) i = scanKV rest (i + 1) ∧
    (t ≠ NoTraceId →
      scanKV (GoVal.ctxv (some t) :: rest) i =
        { scanKV rest (i + 1) with
            fields := TraceId { trace := some t } :: (scanKV rest (i + 1)).fields }) ∧
    NewLogger.Info { trace := none } "msg" [GoVal.str "k1", GoVal.int 1, GoVal.str "k2", GoVal.int 2] =
      [Event.write Level.info "msg"
        [Any "k1" (GoVal.int 1), Any "k2" (GoVal.int 2), TraceId { trace := none }]] := by
  refine ⟨?_, ?_, by decide⟩
  · simp [scanKV, TraceId, NoTraceId]
  · intro ht
    simp only [scanKV]
    rw [if_pos (by simpa [TraceId] using ht)]

/-- C8 witness. -/
theorem scanKV_ctx_slot_w :
    scanKV [GoVal.ctxv (some "4bf92f3577b34da6")] 0 =
      { fields := [TraceId { trace := some "4bf92f3577b34da6" }], invalids := [],
        dangling := none } :=
  ((scanKV_ctx_slot [] 0 "4bf92f3577b34da6").2.1 (by decide)).trans (by decide)

end Log
